import Mathlib

set_option maxHeartbeats 1000000

/-!
Shallow embedding of the matching / candidate-search core of the
1001tracklists→Spotify sync repository: `app/models.py`, `app/match.py`
and `app/providers/spotify.py`.  Python strings are modelled as `List Char`
(wrapped back into `String` at the data-model boundary), Python floats as
`ℚ`, Python `None`-able fields as `Option`, and the external Spotify
catalog client as an oracle `String → Except Unit (List Track)` so that a
raised exception on a single call is observable.
-/

/-! ### Python string primitives over `List Char` -/

/-- Whitespace characters recognised by Python's `\s` and `str.strip()`
(ASCII range: space, tab, newline, carriage return, vertical tab, form feed). -/
def wsChars : List Char := [' ', '\t', '\n', '\r', Char.ofNat 11, Char.ofNat 12]

/-- Is `c` a whitespace character? -/
def isWS (c : Char) : Bool := wsChars.contains c

/-- Uppercase→lowercase table for ASCII letters, mirroring Python `str.lower`
on the ASCII subset relevant to the repository's token tables. -/
def ucPairs : List (Char × Char) :=
  [('A', 'a'), ('B', 'b'), ('C', 'c'), ('D', 'd'), ('E', 'e'), ('F', 'f'),
   ('G', 'g'), ('H', 'h'), ('I', 'i'), ('J', 'j'), ('K', 'k'), ('L', 'l'),
   ('M', 'm'), ('N', 'n'), ('O', 'o'), ('P', 'p'), ('Q', 'q'), ('R', 'r'),
   ('S', 's'), ('T', 't'), ('U', 'u'), ('V', 'v'), ('W', 'w'), ('X', 'x'),
   ('Y', 'y'), ('Z', 'z')]

/-- Lowercase a single character (Python `str.lower`, ASCII model). -/
def lcase (c : Char) : Char :=
  match ucPairs.find? (fun p => p.1 == c) with
  | some p => p.2
  | none => c

/-- Lowercase a character list (Python `str.lower`). -/
def lowerL (l : List Char) : List Char := l.map lcase

/-- Python `str.strip()`: drop whitespace from both ends. -/
def pyStrip (l : List Char) : List Char :=
  ((l.dropWhile isWS).reverse.dropWhile isWS).reverse

/-- `re.sub(r'\s+', ' ', ·)`: replace every maximal whitespace run by a single
space.  The boolean argument records whether the previous character was
whitespace (so the run is already represented). -/
def collapseAux : Bool → List Char → List Char
  | _, [] => []
  | prevWS, c :: rest =>
    if isWS c then
      if prevWS then collapseAux true rest
      else ' ' :: collapseAux true rest
    else c :: collapseAux false rest

/-- Python `str.split()` (no argument): split on whitespace runs, dropping
empty pieces.  `acc` holds the current word, reversed. -/
def splitAux (acc : List Char) : List Char → List (List Char)
  | [] => if acc = [] then [] else [acc.reverse]
  | c :: rest =>
    if isWS c then
      if acc = [] then splitAux [] rest
      else acc.reverse :: splitAux [] rest
    else splitAux (c :: acc) rest

/-- Python `str.split()` (whitespace split). -/
def pySplit (l : List Char) : List (List Char) := splitAux [] l

/-- Python `' '.join(words)`. -/
def joinSp : List (List Char) → List Char
  | [] => []
  | [w] => w
  | w :: w' :: ws => w ++ ' ' :: joinSp (w' :: ws)

/-- Is `pat` a prefix of `l`? (Python startswith; auxiliary for `in`.) -/
def isPreB : List Char → List Char → Bool
  | [], _ => true
  | _ :: _, [] => false
  | a :: as_, b :: bs => a == b && isPreB as_ bs

/-- Python's substring test `pat in l`. -/
def infixB (pat : List Char) : List Char → Bool
  | [] => pat.isEmpty
  | c :: rest => isPreB pat (c :: rest) || infixB pat rest

/-- Python `str.replace(pat, '')` (single pass, left to right,
non-overlapping), with fuel for termination; the fuel is always ample at
the call sites, which only use non-empty patterns. -/
def replaceAllF (pat : List Char) : Nat → List Char → List Char
  | 0, l => l
  | _ + 1, [] => []
  | fuel + 1, c :: rest =>
    if isPreB pat (c :: rest) then replaceAllF pat fuel ((c :: rest).drop pat.length)
    else c :: replaceAllF pat fuel rest

/-- Python `str.replace(pat, '')`. -/
def replaceAll (l pat : List Char) : List Char := replaceAllF pat (l.length + 1) l

/-- `re.split(r",|&", s)`: split on every comma or ampersand, keeping empty
pieces (they are filtered by the callers, as in the Python code). -/
def splitCommaAmpAux (acc : List Char) : List Char → List (List Char)
  | [] => [acc.reverse]
  | c :: rest =>
    if c = ',' ∨ c = '&' then acc.reverse :: splitCommaAmpAux [] rest
    else splitCommaAmpAux (c :: acc) rest

/-- `re.split(r",|&", s)`. -/
def splitCommaAmp (l : List Char) : List (List Char) := splitCommaAmpAux [] l

/-- Python `s.split(pat)[0]`: everything before the first occurrence of
`pat` (the whole string when `pat` does not occur). -/
def beforeFirst (pat : List Char) : List Char → List Char
  | [] => []
  | c :: rest =>
    if isPreB pat (c :: rest) then []
    else c :: beforeFirst pat rest

/-- Python `str.title()` for the token tables: capitalize the first letter of
each space-separated word (tokens are ASCII lowercase words). -/
def pyTitleWord (w : List Char) : List Char :=
  match w with
  | [] => []
  | c :: rest =>
    (match ucPairs.find? (fun p => p.2 == c) with
     | some p => p.1
     | none => c) :: rest

/-- Python `str.title()` on the qualifier tokens (space-separated words). -/
def pyTitle (l : List Char) : List Char :=
  joinSp ((l.splitOn (' ')).map pyTitleWord)

/-! ### `app/models.py` -/

/-- `MatchStatus` enum from `app/models.py`. -/
inductive MatchStatus where
  | EXACT
  | FUZZY
  | NO_MATCH
deriving DecidableEq, Repr

/-- `Track` dataclass from `app/models.py`.  `remixers` defaults to the empty
list (`__post_init__` replaces `None` by `[]`, so it is never null). -/
structure Track where
  title : String
  artist : String
  album : String := ""
  duration : Option Int := none
  external_id : Option String := none
  source : String := ""
  isrc : Option String := none
  mix_name : Option String := none
  label : Option String := none
  year : Option Int := none
  remixers : List String := []
deriving DecidableEq, Repr

/-- `MatchResult` dataclass from `app/models.py` (confidence modelled as `ℚ`). -/
structure MatchResult where
  tracklist_track : Track
  spotify_track : Option Track
  confidence : ℚ
  status : MatchStatus
  reason : String := ""
deriving DecidableEq, Repr

/-! ### `app/match.py` -/

/-- Stop-word table of `normalize_text` (`app/match.py` line 18). -/
def commonWords : List (List Char) :=
  [("the").toList, ("a").toList, ("an").toList, ("and").toList, ("or").toList,
   ("but").toList, ("in").toList, ("on").toList, ("at").toList, ("to").toList,
   ("for").toList, ("of").toList, ("with").toList, ("by").toList]

/-- `normalize_text` from `app/match.py` (list-of-characters level): empty
guard, lowercase, `re.sub(r'\s+', ' ', text.strip())`, whitespace split,
stop-word filter, single-space join. -/
def normalizeL (s : List Char) : List Char :=
  if s = [] then []
  else
    let t1 := lowerL s
    let t2 := collapseAux false (pyStrip t1)
    let ws := pySplit t2
    let kept := ws.filter (fun w => decide (w ∉ commonWords))
    joinSp kept

/-- `normalize_text` from `app/match.py`. -/
def normalize_text (s : String) : String := String.mk (normalizeL s.toList)

/-- Longest-common-subsequence inner step (recursion over the second string,
with `f` the LCS against the tail of the first string). -/
def lcsAux (a : Char) (f : List Char → Nat) : List Char → Nat
  | [] => 0
  | b :: bs => if a = b then f bs + 1 else max (lcsAux a f bs) (f (b :: bs))

/-- Longest common subsequence length, the combinatorial core of
rapidfuzz's indel-based `fuzz.ratio`. -/
def lcs : List Char → List Char → Nat
  | [], _ => 0
  | a :: as_, l2 => lcsAux a (lcs as_) l2

/-- rapidfuzz `fuzz.ratio`: normalized indel similarity × 100, i.e.
`200·lcs/(|s1|+|s2|)`, with `100` for two empty strings. -/
def fuzzScore (s1 s2 : List Char) : ℚ :=
  if s1 = [] ∧ s2 = [] then 100
  else 200 * (lcs s1 s2 : ℚ) / ((s1.length : ℚ) + (s2.length : ℚ))

/-- `calculate_track_similarity` from `app/match.py`: normalize titles and
artists, ratio each on a 0–1 scale, combine `0.7·title + 0.3·artist`. -/
def calculate_track_similarity (track1 track2 : Track) : ℚ :=
  let title1 := normalizeL track1.title.toList
  let title2 := normalizeL track2.title.toList
  let artist1 := normalizeL track1.artist.toList
  let artist2 := normalizeL track2.artist.toList
  let title_similarity := fuzzScore title1 title2 / 100
  let artist_similarity := fuzzScore artist1 artist2 / 100
  title_similarity * (7 / 10) + artist_similarity * (3 / 10)

/-- The extended-mix test of `find_matches` (`app/match.py` line 65):
`mix_name` truthy and containing `'extended'` case-insensitively. -/
def extendedMixCond (t : Track) : Bool :=
  match t.mix_name with
  | none => false
  | some m => !(m == "") && infixB (("extended").toList) (lowerL m.toList)

/-- Base-title computation of `find_matches` (`app/match.py` lines 67–70):
drop a parenthesised suffix when the title contains `(` and the
case-sensitive word `Extended`. -/
def stripBaseTitleForMatch (title : String) : String :=
  if ('(' ∈ title.toList) ∧ infixB (("Extended").toList) title.toList = true then
    String.mk (pyStrip (title.toList.takeWhile (fun c => c ≠ '(')))
  else title

/-- The track actually scored by `find_matches` (`app/match.py` lines 63–84):
for extended-mix tracks, a copy with the base title and no mix name. -/
def matchTrackFor (tt : Track) : Track :=
  if extendedMixCond tt then
    { tt with title := stripBaseTitleForMatch tt.title, mix_name := none }
  else tt

/-- One step of the best-candidate scan of `find_matches` (`app/match.py`
lines 86–91): keep the first strictly-greater confidence. -/
def bestStep (mt : Track) (acc : Option Track × ℚ) (st : Track) :
    Option Track × ℚ :=
  let confidence := calculate_track_similarity mt st
  if confidence > acc.2 then (some st, confidence) else acc

/-- The best-candidate scan of `find_matches` (`app/match.py` lines 86–91). -/
def bestScan (mt : Track) (pool : List Track) : Option Track × ℚ :=
  pool.foldl (bestStep mt) (none, 0)

/-- One iteration of the `find_matches` loop (`app/match.py` lines 59–111). -/
def matchOne (spotify_tracks : List Track) (min_confidence : ℚ)
    (tracklist_track : Track) : MatchResult :=
  let mt := matchTrackFor tracklist_track
  let best := bestScan mt spotify_tracks
  let best_match := best.1
  let best_confidence := best.2
  if best_confidence ≥ 95 / 100 then
    { tracklist_track := tracklist_track, spotify_track := best_match,
      confidence := best_confidence, status := MatchStatus.EXACT, reason := "" }
  else if best_confidence ≥ min_confidence then
    { tracklist_track := tracklist_track, spotify_track := best_match,
      confidence := best_confidence, status := MatchStatus.FUZZY, reason := "" }
  else
    { tracklist_track := tracklist_track, spotify_track := none,
      confidence := best_confidence, status := MatchStatus.NO_MATCH,
      reason := "No close match found" }

/-- `find_matches` from `app/match.py`. -/
def find_matches (tracklist_tracks spotify_tracks : List Track)
    (min_confidence : ℚ) : List MatchResult :=
  tracklist_tracks.map (matchOne spotify_tracks min_confidence)

/-! ### `app/providers/spotify.py` — filters and helpers -/

/-- The candidate-retention test of `_filter_by_duration` (line 603):
`track.duration and min_duration <= track.duration <= max_duration`
(Python truthiness makes a `0`/`None` candidate duration fail). -/
def durTolCond (d : Int) (t : Track) : Bool :=
  match t.duration with
  | none => false
  | some td => decide (td ≠ 0 ∧ d - 5 ≤ td ∧ td ≤ d + 5)

/-- `_filter_by_duration` from `app/providers/spotify.py` (lines 591–607).
`if not tracklist_track.duration` is Python truthiness, so a `0` source
duration also returns the input unchanged. -/
def filter_by_duration (spotify_tracks : List Track) (tracklist_track : Track) :
    List Track :=
  match tracklist_track.duration with
  | none => spotify_tracks
  | some d =>
    if d = 0 then spotify_tracks
    else
      let filtered := spotify_tracks.filter (durTolCond d)
      if filtered = [] then spotify_tracks else filtered

/-- `normalize_title` inside `_prefer_exact_title_and_artist` (lines 428–433):
strip, lowercase, then drop any parenthesised suffix. -/
def prefNormalizeTitle (value : String) : List Char :=
  let v := lowerL (pyStrip value.toList)
  if '(' ∈ v then pyStrip (v.takeWhile (fun c => c ≠ '(')) else v

/-- `[a.strip() for a in re.split(r",|&", artist) if a.strip()]`
(lines 207, 441): individual artist names. -/
def individualArtistsOf (artist : String) : List String :=
  ((splitCommaAmp artist.toList).map pyStrip).filterMap
    (fun a => if a = [] then none else some (String.mk a))

/-- `_prefer_exact_title_and_artist` from `app/providers/spotify.py`
(lines 422–455). -/
def prefer_exact (candidates : List Track) (tracklist_track : Track) :
    List Track :=
  let bp_title_core := prefNormalizeTitle tracklist_track.title
  let bp_artists_lower :=
    (individualArtistsOf tracklist_track.artist).map (fun a => lowerL a.toList)
  candidates.filter (fun c =>
    decide (prefNormalizeTitle c.title = bp_title_core)
      && bp_artists_lower.any (fun a => infixB a (lowerL c.artist.toList)))

/-- `"{s}"` — a quoted query fragment. -/
def quoteStr (s : String) : String := "\"" ++ s ++ "\""

/-- `build_title` inside `_build_enhanced_queries` (lines 462–468): quoted
title, with the mix name appended unless it is trivial or already present
in the title as a parenthetical. -/
def buildTitle (t : Track) (with_mix : Bool) : String :=
  match t.mix_name with
  | some m =>
    if with_mix && !(m == "") && !(m == "Original Mix") then
      if infixB (("(" ++ m ++ ")").toList) t.title.toList
          || infixB (("(" ++ m).toList) t.title.toList then
        quoteStr t.title
      else quoteStr (t.title ++ " (" ++ m ++ ")")
    else quoteStr t.title
  | none => quoteStr t.title

/-- `sanitize` inside `_build_enhanced_queries` (lines 473–476): `None` for a
falsy value, otherwise remove every double quote and strip. -/
def sanitizeS (v : String) : Option String :=
  if v = "" then none
  else some (String.mk (pyStrip (v.toList.filter (fun c => c ≠ '"'))))

/-- First-seen-order deduplication of `_build_enhanced_queries`
(lines 520–527). -/
def dedupAux (seen : List String) : List String → List String
  | [] => []
  | q :: rest =>
    if q ∈ seen then dedupAux seen rest else q :: dedupAux (q :: seen) rest

/-- `_build_enhanced_queries` from `app/providers/spotify.py` (lines 457–528). -/
def buildEnhancedQueries (track : Track) : List String :=
  let title_with_mix := buildTitle track true
  let title_plain := buildTitle track false
  let album_name := sanitizeS track.album
  let label_name :=
    match track.label with
    | none => none
    | some v => sanitizeS v
  let yearOf : Option Int := track.year
  let q12 :=
    match yearOf with
    | some y =>
      if y ≠ 0 then
        [title_with_mix ++ " artist:" ++ quoteStr track.artist ++ " year:" ++ toString y,
         title_with_mix ++ " artist:" ++ quoteStr track.artist ++ " year:"
           ++ toString (y - 1) ++ "-" ++ toString (y + 1)]
      else []
    | none => []
  let q3 :=
    match yearOf with
    | some y =>
      if y ≠ 0 then [track.title ++ " " ++ track.artist ++ " year:" ++ toString y]
      else []
    | none => []
  let q4 := [title_plain ++ " artist:" ++ quoteStr track.artist]
  let q5 := [track.title ++ " " ++ track.artist]
  let q6 :=
    match track.mix_name with
    | some m => if !(m == "") && !(m == "Original Mix") then [title_with_mix] else []
    | none => []
  let q7 := [title_plain]
  let q8 := track.remixers.map (fun r => quoteStr track.title ++ " " ++ quoteStr r)
  let q9 :=
    match album_name with
    | some al =>
      if al ≠ "" then
        (match yearOf with
         | some y =>
           if y ≠ 0 then
             [title_plain ++ " artist:" ++ quoteStr track.artist
               ++ " album:" ++ quoteStr al ++ " year:" ++ toString y]
           else []
         | none => [])
        ++ [title_plain ++ " artist:" ++ quoteStr track.artist ++ " album:" ++ quoteStr al]
        ++ ["album:" ++ quoteStr al ++ " " ++ track.title]
      else []
    | none => []
  let q10 :=
    match label_name with
    | some lb =>
      if lb ≠ "" then [title_plain ++ " artist:" ++ quoteStr track.artist ++ " " ++ lb]
      else []
    | none => []
  dedupAux [] (q12 ++ q3 ++ q4 ++ q5 ++ q6 ++ q7 ++ q8 ++ q9 ++ q10)

/-- Qualifier token table of `_strip_length_qualifiers` (lines 538–540). -/
def qualifierTokens : List (List Char) :=
  [("extended").toList, ("edit").toList, ("club").toList, ("club mix").toList,
   ("radio").toList, ("radio edit").toList, ("dub").toList, ("vip").toList,
   ("version").toList]

/-- `_strip_length_qualifiers` from `app/providers/spotify.py` (lines 530–549):
for each token remove its lowercase and `str.title()` spellings, re-join on
single spaces, then re-append `' Remix'` when the original mix name contained
`remix` (case-insensitively) but the output no longer does. -/
def strip_length_qualifiers (mix_name : String) : String :=
  if mix_name = "" then mix_name
  else
    let out0 := qualifierTokens.foldl
      (fun acc t => replaceAll (replaceAll acc t) (pyTitle t)) mix_name.toList
    let out1 := joinSp (pySplit out0)
    let out2 :=
      if infixB (("remix").toList) (lowerL mix_name.toList)
          && !(infixB (("remix").toList) (lowerL out1)) then
        pyStrip (out1 ++ (" Remix").toList)
      else out1
    String.mk (pyStrip out2)

/-- Atoms of the (case-insensitive) regular expressions used by
`_strip_extended_from_title`: literal character, `\s+`, `\s*`. -/
inductive RAtom where
  | ch (c : Char)
  | wsPlus
  | wsStar
deriving DecidableEq, Repr

/-- Greedy matcher for the patterns of `_strip_extended_from_title`
(greediness is exact here: no pattern needs backtracking, since every
whitespace quantifier is followed by a non-whitespace literal). -/
def rMatch : List RAtom → List Char → Option (List Char)
  | [], l => some l
  | RAtom.wsStar :: ps, l => rMatch ps (l.dropWhile isWS)
  | RAtom.wsPlus :: ps, l =>
    match l with
    | [] => none
    | c :: r => if isWS c then rMatch ps (r.dropWhile isWS) else none
  | RAtom.ch c :: ps, l =>
    match l with
    | [] => none
    | d :: r => if lcase d = lcase c then rMatch ps r else none

/-- Literal (case-insensitive) characters of a pattern. -/
def rLit (s : String) : List RAtom := s.toList.map RAtom.ch

/-- `re.sub(pattern, '', ·, flags=IGNORECASE)` — left-to-right, non-overlapping,
with fuel for termination; the fuel is ample since every pattern below
consumes at least one character on a match. -/
def rSubAllF (p : List RAtom) : Nat → List Char → List Char
  | 0, l => l
  | _ + 1, [] => []
  | fuel + 1, c :: rest =>
    match rMatch p (c :: rest) with
    | some rest' => rSubAllF p fuel rest'
    | none => c :: rSubAllF p fuel rest

/-- `re.sub(pattern, '', l, flags=IGNORECASE)`. -/
def rSubAll (p : List RAtom) (l : List Char) : List Char :=
  rSubAllF p (l.length + 1) l

/-- The pattern battery of `_strip_extended_from_title` (lines 559–567). -/
def extendedPatterns : List (List RAtom) :=
  [[RAtom.wsStar] ++ rLit ("(Extended") ++ [RAtom.wsPlus] ++ rLit ("Mix)"),
   [RAtom.wsStar] ++ rLit ("(Extended)"),
   [RAtom.wsStar] ++ rLit ("(Extended") ++ [RAtom.wsPlus] ++ rLit ("Edit)"),
   [RAtom.wsStar] ++ rLit ("(Extended") ++ [RAtom.wsPlus] ++ rLit ("Version)"),
   [RAtom.wsStar] ++ rLit ("(Extended") ++ [RAtom.wsPlus] ++ rLit ("Rework)"),
   [RAtom.wsStar] ++ rLit ("Extended") ++ [RAtom.wsPlus] ++ rLit ("Mix"),
   [RAtom.wsStar] ++ rLit ("Extended")]

/-- `re.sub(r'\s*[\(\[]\s*$', '', ·)` (line 576): remove one trailing `(` or
`[` together with surrounding whitespace at the end of the string. -/
def stripTrailingBracket (l : List Char) : List Char :=
  let rev := l.reverse
  let rev1 := rev.dropWhile isWS
  match rev1 with
  | [] => l
  | b :: rest =>
    if b = '(' ∨ b = '[' then (rest.dropWhile isWS).reverse
    else l

/-- `_strip_extended_from_title` from `app/providers/spotify.py`
(lines 551–578). -/
def stripExtendedFromTitle (title : String) : String :=
  if title = "" then title
  else
    let r0 := extendedPatterns.foldl (fun acc p => rSubAll p acc) title.toList
    let r1 := pyStrip (collapseAux false r0)
    let r2 := stripTrailingBracket r1
    String.mk (pyStrip r2)

/-- `_primary_remixer_from_mix` from `app/providers/spotify.py`
(lines 580–589): text before the literal `Remix`, stripped, accepted when
non-empty and at most 4 whitespace-separated tokens. -/
def primaryRemixerFromMix (mix_name : String) : Option String :=
  if mix_name = "" then none
  else
    let parts := pyStrip (beforeFirst (("Remix").toList) mix_name.toList)
    if parts ≠ [] ∧ (pySplit parts).length ≤ 4 then some (String.mk parts)
    else none

/-! ### `app/providers/spotify.py` — the retrieval cascade

The Spotify search endpoint is modelled as an oracle from a query string to
either an error (a raised exception: network failure, non-2xx status,
malformed response) or a list of parsed candidate tracks.  `search_track`
additionally returns the list of queries it dispatched, so that
short-circuiting is observable. -/

/-- The external catalog client boundary. -/
abbrev Catalog := String → Except Unit (List Track)

/-- One `for query in queries: try … except: continue` loop: dispatch the
queries in order; a raised exception or a rejected result set moves on to
the next query; `accept` returns the result set the loop `return`s.
Also records the queries dispatched. -/
def tryQueries (catalog : Catalog) (accept : List Track → Option (List Track)) :
    List String → Option (List Track) × List String
  | [] => (none, [])
  | q :: rest =>
    match catalog q with
    | Except.error _ =>
      let n := tryQueries catalog accept rest
      (n.1, q :: n.2)
    | Except.ok ts =>
      match accept ts with
      | some res => (some res, [q])
      | none =>
        let n := tryQueries catalog accept rest
        (n.1, q :: n.2)

/-- Accept any non-empty result set (`if spotify_tracks: return …`). -/
def acceptNonempty (ts : List Track) : Option (List Track) :=
  if ts = [] then none else some ts

/-- Title normalization at the top of `search_track` (lines 47–56): close an
unbalanced trailing parenthesis, then collapse and strip whitespace. -/
def normalizeTitleStr (title : String) : String :=
  let l := title.toList
  let l2 :=
    if l.contains ('(') && !((l.reverse.takeWhile (fun c => c ≠ '(')).contains (')'))
    then l ++ [')'] else l
  String.mk (pyStrip (collapseAux false l2))

/-- The track rebuild of `search_track` lines 57–75. -/
def normalizeTrack (track : Track) : Track :=
  let nt := normalizeTitleStr track.title
  if nt ≠ track.title then { track with title := nt } else track

/-- Strategy 1 (lines 77–87): ISRC lookup.  `_search_by_isrc` swallows its own
errors and returns `[]`, so an error falls through like an empty hit. -/
def isrcStep (catalog : Catalog) (t : Track) : Option (List Track) × List String :=
  match t.isrc with
  | none => (none, [])
  | some s =>
    if s = "" then (none, [])
    else
      let q := "isrc:" ++ s
      match catalog q with
      | Except.error _ => (none, [q])
      | Except.ok r => if r = [] then (none, [q]) else (some r, [q])

/-- Strategy 1.5 (lines 89–144): extended-mix fast path — strip the Extended
qualifier from the title and accept the first non-empty result, unfiltered. -/
def extFastStep (catalog : Catalog) (t : Track) : Option (List Track) × List String :=
  if extendedMixCond t then
    let base_title := stripExtendedFromTitle t.title
    if base_title ≠ t.title then
      let base_track := { t with title := base_title, mix_name := none }
      tryQueries catalog acceptNonempty (buildEnhancedQueries base_track)
    else (none, [])
  else (none, [])

/-- The per-query acceptance logic of Strategy 2 (lines 176–195): prefer exact
title/artist overlap, else duration-filter (disabled for extended mixes). -/
def enhancedAccept (edf : Bool) (t : Track) (ts : List Track) :
    Option (List Track) :=
  if ts = [] then none
  else
    let preferred := prefer_exact ts t
    if preferred ≠ [] then some preferred
    else
      let use_duration_filter := edf && !(extendedMixCond t)
      let filtered := if use_duration_filter then filter_by_duration ts t else ts
      if filtered ≠ [] then some filtered else none

/-- Strategy 2 (lines 146–201): enhanced metadata queries. -/
def enhancedStep (catalog : Catalog) (edf : Bool) (t : Track) :
    Option (List Track) × List String :=
  tryQueries catalog (enhancedAccept edf t) (buildEnhancedQueries t)

/-- `title_with_mix` of the per-artist fallback (lines 211–217). -/
def titleWithMixOpt (t : Track) : Option String :=
  match t.mix_name with
  | none => none
  | some m =>
    if !(m == "") && !(m == "Original Mix") then
      if infixB (("(" ++ m ++ ")").toList) t.title.toList
          || infixB (("(" ++ m).toList) t.title.toList then
        some (quoteStr t.title)
      else some (quoteStr (t.title ++ " (" ++ m ++ ")"))
    else none

/-- The query list of the per-artist fallback (lines 209–221). -/
def perArtistQueries (t : Track) : List String :=
  let title_plain := quoteStr t.title
  let twm := titleWithMixOpt t
  (individualArtistsOf t.artist).flatMap (fun a =>
    (title_plain ++ " artist:" ++ quoteStr a) ::
      (match twm with
       | some q => [q ++ " artist:" ++ quoteStr a]
       | none => []))

/-- Fallback A (lines 203–248): per-artist variants, unfiltered. -/
def perArtistStep (catalog : Catalog) (t : Track) :
    Option (List Track) × List String :=
  if individualArtistsOf t.artist = [] then (none, [])
  else tryQueries catalog acceptNonempty (perArtistQueries t)

/-- Strategy 2.5 (lines 250–304): extended-mix base retry, unfiltered. -/
def extRetryStep (catalog : Catalog) (t : Track) :
    Option (List Track) × List String :=
  if extendedMixCond t then
    let base_title := stripExtendedFromTitle t.title
    if base_title ≠ t.title then
      let base_queries :=
        [quoteStr base_title ++ " artist:" ++ quoteStr t.artist,
         quoteStr base_title ++ " " ++ t.artist,
         quoteStr base_title]
        ++ (individualArtistsOf t.artist).flatMap (fun a =>
          [quoteStr base_title ++ " artist:" ++ quoteStr a,
           quoteStr base_title ++ " " ++ quoteStr a])
      tryQueries catalog acceptNonempty base_queries
    else (none, [])
  else (none, [])

/-- Qualifier-trimmed mix retry (lines 306–353), unfiltered. -/
def trimStep (catalog : Catalog) (t : Track) : Option (List Track) × List String :=
  match t.mix_name with
  | none => (none, [])
  | some m =>
    if m = "" then (none, [])
    else
      let trimmed := strip_length_qualifiers m
      if trimmed ≠ m then
        let queries2 := buildEnhancedQueries { t with mix_name := some trimmed }
        let queriesAll := queries2 ++
          (match primaryRemixerFromMix trimmed with
           | some p => [quoteStr t.title ++ " " ++ quoteStr p]
           | none => [])
        tryQueries catalog acceptNonempty queriesAll
      else (none, [])

/-- Fallback B (lines 356–385): title-only, then title + each artist name. -/
def lastResortStep (catalog : Catalog) (t : Track) :
    Option (List Track) × List String :=
  tryQueries catalog acceptNonempty
    (quoteStr t.title ::
      (individualArtistsOf t.artist).map (fun a =>
        quoteStr t.title ++ " " ++ quoteStr a))

/-- Sequence two cascade stages: keep the first accepted batch, accumulating
the query log. -/
def chain (r : Option (List Track) × List String)
    (next : Unit → Option (List Track) × List String) :
    Option (List Track) × List String :=
  match r.1 with
  | some ts => (some ts, r.2)
  | none =>
    let n := next ()
    (n.1, r.2 ++ n.2)

/-- `search_track` from `app/providers/spotify.py` (lines 39–388): the full
candidate-retrieval cascade.  Returns the accepted candidates (or `[]` after
exhaustion) together with the dispatched query log. -/
def search_track (catalog : Catalog) (enable_duration_filter : Bool)
    (track : Track) : List Track × List String :=
  let t := normalizeTrack track
  let res :=
    chain (isrcStep catalog t) (fun _ =>
      chain (extFastStep catalog t) (fun _ =>
        chain (enhancedStep catalog enable_duration_filter t) (fun _ =>
          chain (perArtistStep catalog t) (fun _ =>
            chain (extRetryStep catalog t) (fun _ =>
              chain (trimStep catalog t) (fun _ =>
                lastResortStep catalog t))))))
  match res.1 with
  | some ts => (ts, res.2)
  | none => ([], res.2)

/-- Map a raised catalog exception to an empty result set. -/
def okify (catalog : Catalog) : Catalog := fun q =>
  match catalog q with
  | Except.error _ => Except.ok []
  | Except.ok r => Except.ok r

/-! ### Supporting lemmas -/

theorem lcs_nil_right : ∀ l : List Char, lcs l [] = 0 := by
  intro l
  cases l with
  | nil => rfl
  | cons a as_ => rfl

theorem lcs_comm : ∀ l1 l2 : List Char, lcs l1 l2 = lcs l2 l1 := by
  intro l1
  induction l1 with
  | nil =>
    intro l2
    rw [lcs_nil_right]
    rfl
  | cons a as_ ih1 =>
    intro l2
    induction l2 with
    | nil => rw [lcs_nil_right]; rfl
    | cons b bs ih2 =>
      show lcsAux a (lcs as_) (b :: bs) = lcsAux b (lcs bs) (a :: as_)
      simp only [lcsAux]
      by_cases h : a = b
      · rw [if_pos h, if_pos h.symm, ih1]
      · rw [if_neg h, if_neg (Ne.symm h)]
        have e1 : lcsAux a (lcs as_) bs = lcs (a :: as_) bs := rfl
        have e2 : lcsAux b (lcs bs) as_ = lcs (b :: bs) as_ := rfl
        rw [e1, e2, ih2, ih1 (b :: bs), Nat.max_comm]

theorem fuzzScore_comm (s1 s2 : List Char) : fuzzScore s1 s2 = fuzzScore s2 s1 := by
  unfold fuzzScore
  by_cases h1 : s1 = [] <;> by_cases h2 : s2 = [] <;>
    simp [h1, h2, lcs_comm, add_comm]

/-- C8: the similarity scorer is symmetric: `score(A,B) = score(B,A)` for all
pairs of tracks, because both the title and the artist ratios are computed
with the same symmetric edit-ratio function. -/
theorem calculate_track_similarity_symm (A B : Track) :
    calculate_track_similarity A B = calculate_track_similarity B A := by
  simp only [calculate_track_similarity]
  rw [fuzzScore_comm (normalizeL A.title.toList),
    fuzzScore_comm (normalizeL A.artist.toList)]

/-- C10: the similarity score depends only on the `title` and `artist` fields
of its two arguments; all other fields (album, duration, isrc, mix name,
label, year, remixers) are ignored. -/
theorem calculate_track_similarity_noninterference
    (A A' B B' : Track) (hat : A.title = A'.title) (haa : A.artist = A'.artist)
    (hbt : B.title = B'.title) (hba : B.artist = B'.artist) :
    calculate_track_similarity A B = calculate_track_similarity A' B' := by
  unfold calculate_track_similarity
  rw [hat, haa, hbt, hba]

theorem calculate_track_similarity_noninterference_witness :
    calculate_track_similarity
      { title := "Strobe", artist := "deadmau5" }
      { title := "Opus", artist := "Eric Prydz" } =
    calculate_track_similarity
      { title := "Strobe", artist := "deadmau5", album := "For Lack of a Better Name",
        duration := some 634, isrc := some "USUS11000355", year := some 2009,
        remixers := ["Club Edit"] }
      { title := "Opus", artist := "Eric Prydz", label := some "Virgin",
        mix_name := some "Extended Mix", duration := some 540 } :=
  calculate_track_similarity_noninterference _ _ _ _ rfl rfl rfl rfl

theorem mem_dedupAux_of_mem (q : String) :
    ∀ (l seen : List String), q ∈ l → q ∉ seen → q ∈ dedupAux seen l := by
  intro l
  induction l with
  | nil => intro seen h _; cases h
  | cons x rest ih =>
    intro seen hmem hq
    rcases List.mem_cons.mp hmem with rfl | hr
    · rw [dedupAux, if_neg hq]
      exact List.mem_cons_self _ _
    · by_cases hx : x ∈ seen
      · rw [dedupAux, if_pos hx]
        exact ih seen hr hq
      · rw [dedupAux, if_neg hx]
        by_cases hqx : q = x
        · exact hqx ▸ List.mem_cons_self _ _
        · refine List.mem_cons_of_mem _ (ih (x :: seen) hr ?_)
          intro hin
          rcases List.mem_cons.mp hin with h | h
          · exact hqx h
          · exact hq h

theorem buildTitle_false (t : Track) : buildTitle t false = quoteStr t.title := by
  unfold buildTitle
  cases t.mix_name <;> simp

/-- C9: for every track, the query builder's output contains the quoted
title-only query, and is in particular non-empty — the cascade always has at
least one query to dispatch. -/
theorem buildEnhancedQueries_contains_title (t : Track) :
    quoteStr t.title ∈ buildEnhancedQueries t ∧ buildEnhancedQueries t ≠ [] := by
  have hmem : quoteStr t.title ∈ buildEnhancedQueries t := by
    unfold buildEnhancedQueries
    apply mem_dedupAux_of_mem
    · simp [List.mem_append, buildTitle_false]
    · simp
  exact ⟨hmem, List.ne_nil_of_mem hmem⟩

/-! ### C3 — the duration filter -/

/-- The claim's tolerance notion, following the spec's words ("candidates
whose duration lies within ±5 seconds of the source duration"), for
comparison with the implementation's `durTolCond`. -/
def specWithinTol (d : Int) (t : Track) : Bool :=
  match t.duration with
  | none => false
  | some td => decide (d - 5 ≤ td ∧ td ≤ d + 5)

/-- C3 (counterexample): with a source duration of `0` — an integer, not
null — the code takes the Python-falsy branch and returns the input
unchanged, although a candidate (duration 3) lies within ±5 seconds and the
claim then demands exactly that candidate. -/
theorem filter_by_duration_counterexample :
    filter_by_duration
        [{ title := "x", artist := "y", duration := some 3 },
         { title := "z", artist := "w", duration := some 100 }]
        { title := "s", artist := "a", duration := some 0 } =
      [{ title := "x", artist := "y", duration := some 3 },
       { title := "z", artist := "w", duration := some 100 }]
    ∧ ({ title := "s", artist := "a", duration := some 0 } : Track).duration = some 0
    ∧ [({ title := "x", artist := "y", duration := some 3 } : Track),
       { title := "z", artist := "w", duration := some 100 }].filter (specWithinTol 0) =
      [{ title := "x", artist := "y", duration := some 3 }]
    ∧ [({ title := "x", artist := "y", duration := some 3 } : Track),
       { title := "z", artist := "w", duration := some 100 }] ≠
      [{ title := "x", artist := "y", duration := some 3 }] := by
  refine ⟨rfl, rfl, rfl, ?_⟩
  decide

/-- C3 (amended): for every non-empty candidate list the duration filter
returns a non-empty result; a null **or zero** source duration returns the
input unchanged; otherwise the candidates retained are exactly those whose
duration is non-null, non-zero and within ±5 seconds of the source duration,
falling back to the original unfiltered list when that set is empty. -/
theorem filter_by_duration_amended (cands : List Track) (track : Track) :
    (cands ≠ [] → filter_by_duration cands track ≠ [])
    ∧ (track.duration = none → filter_by_duration cands track = cands)
    ∧ (track.duration = some 0 → filter_by_duration cands track = cands)
    ∧ (∀ d : Int, track.duration = some d → d ≠ 0 →
        filter_by_duration cands track =
          (if cands.filter (durTolCond d) = [] then cands
           else cands.filter (durTolCond d))) := by
  refine ⟨?_, ?_, ?_, ?_⟩
  · intro hne
    unfold filter_by_duration
    cases h : track.duration with
    | none => exact hne
    | some d =>
      dsimp only
      by_cases hd : d = 0
      · rw [if_pos hd]; exact hne
      · rw [if_neg hd]
        by_cases hf : cands.filter (durTolCond d) = []
        · rw [if_pos hf]; exact hne
        · rw [if_neg hf]; exact hf
  · intro h; unfold filter_by_duration; rw [h]
  · intro h; unfold filter_by_duration; rw [h]; simp
  · intro d h hd; unfold filter_by_duration; rw [h]; dsimp only; rw [if_neg hd]

theorem filter_by_duration_amended_witness :
    filter_by_duration [{ title := "x", artist := "y", duration := some 8 }]
        { title := "s", artist := "a", duration := some 10 } ≠ []
    ∧ filter_by_duration [{ title := "x", artist := "y", duration := some 8 }]
        { title := "s", artist := "a", duration := some 10 } =
      (if [({ title := "x", artist := "y", duration := some 8 } : Track)].filter
            (durTolCond 10) = [] then
         [{ title := "x", artist := "y", duration := some 8 }]
       else [({ title := "x", artist := "y", duration := some 8 } : Track)].filter
            (durTolCond 10)) :=
  ⟨(filter_by_duration_amended
      [{ title := "x", artist := "y", duration := some 8 }]
      { title := "s", artist := "a", duration := some 10 }).1 (by decide),
   (filter_by_duration_amended
      [{ title := "x", artist := "y", duration := some 8 }]
      { title := "s", artist := "a", duration := some 10 }).2.2.2 10 rfl (by decide)⟩

/-! ### C1 / C2 — the match decision engine -/

theorem matchOne_tracklist (pool : List Track) (mc : ℚ) (tt : Track) :
    (matchOne pool mc tt).tracklist_track = tt := by
  simp only [matchOne]
  split_ifs <;> rfl

theorem matchOne_props (pool : List Track) (mc : ℚ) (tt : Track) :
    ((matchOne pool mc tt).status = MatchStatus.EXACT ↔
      (95 : ℚ) / 100 ≤ (matchOne pool mc tt).confidence)
    ∧ ((matchOne pool mc tt).status = MatchStatus.FUZZY ↔
      mc ≤ (matchOne pool mc tt).confidence
        ∧ (matchOne pool mc tt).confidence < 95 / 100)
    ∧ ((matchOne pool mc tt).status = MatchStatus.NO_MATCH ↔
      ¬((95 : ℚ) / 100 ≤ (matchOne pool mc tt).confidence)
        ∧ ¬(mc ≤ (matchOne pool mc tt).confidence
            ∧ (matchOne pool mc tt).confidence < 95 / 100))
    ∧ ((matchOne pool mc tt).status = MatchStatus.NO_MATCH →
      (matchOne pool mc tt).reason = "No close match found")
    ∧ ((matchOne pool mc tt).status ≠ MatchStatus.NO_MATCH →
      (matchOne pool mc tt).reason = "") := by
  simp only [matchOne]
  split_ifs with h1 h2
  · refine ⟨⟨fun _ => h1, fun _ => rfl⟩, ⟨fun h => absurd h (by decide), ?_⟩,
      ⟨fun h => absurd h (by decide), fun h => absurd h1 h.1⟩,
      fun h => absurd h (by decide), fun _ => rfl⟩
    rintro ⟨-, hlt⟩
    exact absurd h1 (not_le.mpr hlt)
  · refine ⟨⟨fun h => absurd h (by decide), fun hle => absurd hle h1⟩,
      ⟨fun _ => ⟨h2, not_le.mp h1⟩, fun _ => rfl⟩,
      ⟨fun h => absurd h (by decide), fun h => absurd ⟨h2, not_le.mp h1⟩ h.2⟩,
      fun h => absurd h (by decide), fun _ => rfl⟩
  · refine ⟨⟨fun h => absurd h (by decide), fun hle => absurd hle h1⟩,
      ⟨fun h => absurd h (by decide), ?_⟩,
      ⟨fun _ => ⟨h1, ?_⟩, fun _ => rfl⟩, fun _ => rfl,
      fun h => absurd rfl h⟩
    · rintro ⟨hmc, -⟩
      exact absurd hmc h2
    · rintro ⟨hmc, -⟩
      exact absurd hmc h2

/-- C1: `find_matches` returns exactly one result per source track, in order
(the results project back to the input list), and each result's status is
classified from its confidence by the thresholds: `≥ 0.95` exact,
`min_confidence ≤ · < 0.95` fuzzy, otherwise no-match with reason
`"No close match found"` — with exactly one status applying to any
confidence value (the three iff right-hand sides are mutually exclusive and
exhaustive). -/
theorem find_matches_spec (tracklist_tracks spotify_tracks : List Track)
    (min_confidence : ℚ) :
    (find_matches tracklist_tracks spotify_tracks min_confidence).map
        (fun r => r.tracklist_track) = tracklist_tracks
    ∧ ∀ r ∈ find_matches tracklist_tracks spotify_tracks min_confidence,
        (r.status = MatchStatus.EXACT ↔ (95 : ℚ) / 100 ≤ r.confidence)
        ∧ (r.status = MatchStatus.FUZZY ↔
            min_confidence ≤ r.confidence ∧ r.confidence < 95 / 100)
        ∧ (r.status = MatchStatus.NO_MATCH ↔
            ¬((95 : ℚ) / 100 ≤ r.confidence)
              ∧ ¬(min_confidence ≤ r.confidence ∧ r.confidence < 95 / 100))
        ∧ (r.status = MatchStatus.NO_MATCH → r.reason = "No close match found")
        ∧ (r.status ≠ MatchStatus.NO_MATCH → r.reason = "") := by
  constructor
  · unfold find_matches
    induction tracklist_tracks with
    | nil => rfl
    | cons t rest ih => simp only [List.map_cons, matchOne_tracklist, ih]
  · intro r hr
    obtain ⟨tt, -, rfl⟩ := List.mem_map.mp hr
    exact matchOne_props spotify_tracks min_confidence tt

theorem find_matches_spec_witness :
    (find_matches [{ title := "Strobe", artist := "deadmau5" }] []
        ((4 : ℚ) / 5)).map (fun r => r.tracklist_track) =
      [{ title := "Strobe", artist := "deadmau5" }]
    ∧ ((MatchResult.mk { title := "Strobe", artist := "deadmau5" } none 0
          MatchStatus.NO_MATCH ("No close match found")).status =
            MatchStatus.NO_MATCH ↔
        ¬((95 : ℚ) / 100 ≤
            (MatchResult.mk { title := "Strobe", artist := "deadmau5" } none 0
              MatchStatus.NO_MATCH ("No close match found")).confidence)
          ∧ ¬((4 : ℚ) / 5 ≤
                (MatchResult.mk { title := "Strobe", artist := "deadmau5" } none 0
                  MatchStatus.NO_MATCH ("No close match found")).confidence
              ∧ (MatchResult.mk { title := "Strobe", artist := "deadmau5" } none 0
                  MatchStatus.NO_MATCH ("No close match found")).confidence
                < 95 / 100)) := by
  refine ⟨(find_matches_spec [{ title := "Strobe", artist := "deadmau5" }] []
      ((4 : ℚ) / 5)).1,
    ((find_matches_spec [{ title := "Strobe", artist := "deadmau5" }] []
      ((4 : ℚ) / 5)).2 _ ?_).2.2.1⟩
  simp only [find_matches, List.map_cons, List.map_nil]
  rw [List.mem_singleton]
  simp only [matchOne, bestScan, List.foldl_nil]
  rw [if_neg (by norm_num), if_neg (by norm_num)]

theorem foldl_bestStep_none (mt : Track) :
    ∀ (pool : List Track) (acc : Option Track × ℚ),
      (pool.foldl (bestStep mt) acc).1 = none →
      pool.foldl (bestStep mt) acc = acc := by
  intro pool
  induction pool with
  | nil => intro acc _; rfl
  | cons st rest ih =>
    intro acc h
    simp only [List.foldl_cons] at h ⊢
    have h2 := ih _ h
    rw [h2] at h ⊢
    by_cases hc : calculate_track_similarity mt st > acc.2
    · exfalso
      simp only [bestStep, if_pos hc] at h
      exact Option.noConfusion h
    · simp only [bestStep, if_neg hc]

theorem bestScan_conf_of_none (mt : Track) (pool : List Track)
    (h : (bestScan mt pool).1 = none) : (bestScan mt pool).2 = 0 := by
  unfold bestScan at h ⊢
  rw [foldl_bestStep_none mt pool (none, 0) h]

/-- C2 (counterexample): with `min_confidence = 0` and an empty candidate
pool, `find_matches` labels the result `fuzzy` (`0.0 ≥ 0`) while
`spotify_track` is null — the claimed equivalence fails for this value of
`min_confidence`. -/
theorem find_matches_no_match_iff_counterexample :
    ¬ (∀ r ∈ find_matches [{ title := "Strobe", artist := "deadmau5" }] [] 0,
        (r.status = MatchStatus.NO_MATCH ↔ r.spotify_track = none)) := by
  intro h
  have hmem : (MatchResult.mk { title := "Strobe", artist := "deadmau5" } none 0
      MatchStatus.FUZZY ("")) ∈
      find_matches [{ title := "Strobe", artist := "deadmau5" }] [] 0 := by
    simp only [find_matches, List.map_cons, List.map_nil]
    rw [List.mem_singleton]
    simp only [matchOne, bestScan, List.foldl_nil]
    rw [if_neg (by norm_num), if_pos (by norm_num)]
  have := (h _ hmem).mpr rfl
  exact absurd this (by decide)

/-- C2 (amended): for every source list, candidate pool and every **positive**
`min_confidence`, each result satisfies `status = no_match` iff its
`spotify_track` is null.  (At `min_confidence ≤ 0` an empty pool yields a
`fuzzy` result with a null candidate, since the scan's best confidence
starts at `0.0`.) -/
theorem find_matches_no_match_iff (tracks pool : List Track) (mc : ℚ)
    (hmc : 0 < mc) :
    ∀ r ∈ find_matches tracks pool mc,
      (r.status = MatchStatus.NO_MATCH ↔ r.spotify_track = none) := by
  intro r hr
  obtain ⟨tt, -, rfl⟩ := List.mem_map.mp hr
  simp only [matchOne]
  split_ifs with h1 h2
  · constructor
    · intro h; exact absurd h (by decide)
    · intro h
      exfalso
      have h0 := bestScan_conf_of_none (matchTrackFor tt) pool h
      rw [h0] at h1
      exact absurd h1 (by norm_num)
  · constructor
    · intro h; exact absurd h (by decide)
    · intro h
      exfalso
      have h0 := bestScan_conf_of_none (matchTrackFor tt) pool h
      rw [h0] at h2
      exact absurd hmc (not_lt.mpr h2)
  · exact ⟨fun _ => rfl, fun _ => rfl⟩

theorem find_matches_no_match_iff_witness :
    (MatchResult.mk { title := "Strobe", artist := "deadmau5" } none 0
        MatchStatus.NO_MATCH ("No close match found")).status =
          MatchStatus.NO_MATCH ↔
      (MatchResult.mk { title := "Strobe", artist := "deadmau5" } none 0
        MatchStatus.NO_MATCH ("No close match found")).spotify_track = none := by
  refine find_matches_no_match_iff [{ title := "Strobe", artist := "deadmau5" }]
    [] ((4 : ℚ) / 5) (by norm_num) _ ?_
  simp only [find_matches, List.map_cons, List.map_nil]
  rw [List.mem_singleton]
  simp only [matchOne, bestScan, List.foldl_nil]
  rw [if_neg (by norm_num), if_neg (by norm_num)]

/-! ### C4 / C5 — the retrieval cascade -/

theorem normalizeTrack_isrc (track : Track) :
    (normalizeTrack track).isrc = track.isrc := by
  simp only [normalizeTrack]
  split <;> rfl

/-- C4: whenever a track carries a populated ISRC and the catalog's ISRC
lookup succeeds with a non-empty record list, `search_track` returns exactly
those records — unfiltered — and the ISRC query is the only catalog query
ever dispatched (no later-strategy query is issued). -/
theorem search_track_isrc_short_circuit (catalog : Catalog) (edf : Bool)
    (track : Track) (s : String) (r : List Track)
    (hisrc : track.isrc = some s) (hs : s ≠ "")
    (hcat : catalog ("isrc:" ++ s) = Except.ok r) (hr : r ≠ []) :
    search_track catalog edf track = (r, ["isrc:" ++ s]) := by
  have hisrc' : (normalizeTrack track).isrc = some s :=
    (normalizeTrack_isrc track).trans hisrc
  have hstep : isrcStep catalog (normalizeTrack track) =
      (some r, ["isrc:" ++ s]) := by
    simp only [isrcStep, hisrc', if_neg hs, hcat, if_neg hr]
  simp only [search_track, hstep, chain]

theorem search_track_isrc_short_circuit_witness :
    search_track
      (fun q => if q = "isrc:USUM71029260"
        then Except.ok [{ title := "Strobe", artist := "deadmau5" }]
        else Except.error ())
      true
      { title := "Strobe", artist := "deadmau5", isrc := some "USUM71029260" } =
    ([{ title := "Strobe", artist := "deadmau5" }], ["isrc:USUM71029260"]) :=
  search_track_isrc_short_circuit _ true _ ("USUM71029260")
    [{ title := "Strobe", artist := "deadmau5" }] rfl (by decide) (by simp) (by simp)

theorem tryQueries_okify (catalog : Catalog)
    (accept : List Track → Option (List Track)) (h : accept [] = none) :
    ∀ qs, tryQueries (okify catalog) accept qs = tryQueries catalog accept qs := by
  intro qs
  induction qs with
  | nil => rfl
  | cons q rest ih =>
    simp only [tryQueries, okify]
    cases hcq : catalog q with
    | error e => simp only [h, ih]
    | ok ts => simp only [ih]

theorem isrcStep_okify (catalog : Catalog) (t : Track) :
    isrcStep (okify catalog) t = isrcStep catalog t := by
  unfold isrcStep okify
  cases t.isrc with
  | none => rfl
  | some s =>
    dsimp only
    by_cases hs : s = ""
    · rw [if_pos hs, if_pos hs]
    · rw [if_neg hs, if_neg hs]
      cases catalog ("isrc:" ++ s) with
      | error e => simp
      | ok r => rfl

theorem extFastStep_okify (catalog : Catalog) (t : Track) :
    extFastStep (okify catalog) t = extFastStep catalog t := by
  simp only [extFastStep]
  split_ifs <;> first
    | rfl
    | exact tryQueries_okify catalog acceptNonempty rfl _

theorem enhancedStep_okify (catalog : Catalog) (edf : Bool) (t : Track) :
    enhancedStep (okify catalog) edf t = enhancedStep catalog edf t := by
  unfold enhancedStep
  exact tryQueries_okify catalog (enhancedAccept edf t) rfl _

theorem perArtistStep_okify (catalog : Catalog) (t : Track) :
    perArtistStep (okify catalog) t = perArtistStep catalog t := by
  simp only [perArtistStep]
  split_ifs <;> first
    | rfl
    | exact tryQueries_okify catalog acceptNonempty rfl _

theorem extRetryStep_okify (catalog : Catalog) (t : Track) :
    extRetryStep (okify catalog) t = extRetryStep catalog t := by
  simp only [extRetryStep]
  split_ifs <;> first
    | rfl
    | exact tryQueries_okify catalog acceptNonempty rfl _

theorem trimStep_okify (catalog : Catalog) (t : Track) :
    trimStep (okify catalog) t = trimStep catalog t := by
  unfold trimStep
  cases t.mix_name with
  | none => rfl
  | some m =>
    simp only
    split_ifs <;> first
      | rfl
      | exact tryQueries_okify catalog acceptNonempty rfl _

theorem lastResortStep_okify (catalog : Catalog) (t : Track) :
    lastResortStep (okify catalog) t = lastResortStep catalog t := by
  unfold lastResortStep
  exact tryQueries_okify catalog acceptNonempty rfl _

/-- C5: a raised catalog error on any single query is handled exactly like a
query that returned zero candidates: running the cascade against the real
catalog and against the catalog with every error replaced by an empty result
produces identical outcomes (same candidates, same dispatched queries) —
and `search_track` is total, so a failing call never aborts the per-track
retrieval with an error. -/
theorem search_track_error_as_empty (catalog : Catalog) (edf : Bool)
    (track : Track) :
    search_track catalog edf track = search_track (okify catalog) edf track := by
  simp only [search_track, isrcStep_okify, extFastStep_okify, enhancedStep_okify,
    perArtistStep_okify, extRetryStep_okify, trimStep_okify, lastResortStep_okify]

/-! ### C6 — qualifier trimming -/

theorem lcase_idem (c : Char) : lcase (lcase c) = lcase c := by
  have all : ∀ q ∈ ucPairs, lcase q.2 = q.2 := by decide
  cases h : ucPairs.find? (fun p => p.1 == c) with
  | none =>
    have hc : lcase c = c := by unfold lcase; rw [h]
    rw [hc]
    exact hc
  | some p =>
    have hc : lcase c = p.2 := by unfold lcase; rw [h]
    rw [hc]
    exact all p (List.mem_of_find?_eq_some h)

theorem lowerL_fix (l : List Char) (h : ∀ c ∈ l, lcase c = c) : lowerL l = l := by
  induction l with
  | nil => rfl
  | cons c rest ih =>
    simp only [lowerL, List.map_cons]
    rw [h c (List.mem_cons_self _ _)]
    exact congrArg _ (ih (fun d hd => h d (List.mem_cons_of_mem _ hd)))

theorem splitAux_good :
    ∀ (l acc : List Char), (∀ c ∈ acc, isWS c = false) →
      ∀ w ∈ splitAux acc l, w ≠ [] ∧ ∀ c ∈ w, isWS c = false := by
  intro l
  induction l with
  | nil =>
    intro acc hacc w hw
    simp only [splitAux] at hw
    by_cases ha : acc = []
    · rw [if_pos ha] at hw
      cases hw
    · rw [if_neg ha] at hw
      rcases List.mem_singleton.mp hw with rfl
      refine ⟨by simpa using ha, fun c hc => hacc c (List.mem_reverse.mp hc)⟩
  | cons c rest ih =>
    intro acc hacc w hw
    simp only [splitAux] at hw
    by_cases hc : isWS c
    · rw [if_pos hc] at hw
      by_cases ha : acc = []
      · rw [if_pos ha] at hw
        exact ih [] (by simp) w hw
      · rw [if_neg ha] at hw
        rcases List.mem_cons.mp hw with rfl | hw2
        · exact ⟨by simpa using ha, fun d hd => hacc d (List.mem_reverse.mp hd)⟩
        · exact ih [] (by simp) w hw2
    · rw [if_neg hc] at hw
      refine ih (c :: acc) ?_ w hw
      intro d hd
      rcases List.mem_cons.mp hd with rfl | hd2
      · exact Bool.eq_false_iff.mpr hc
      · exact hacc d hd2

theorem splitAux_chars :
    ∀ (l acc : List Char), ∀ w ∈ splitAux acc l, ∀ c ∈ w, c ∈ l ∨ c ∈ acc := by
  intro l
  induction l with
  | nil =>
    intro acc w hw c hc
    simp only [splitAux] at hw
    by_cases ha : acc = []
    · rw [if_pos ha] at hw; cases hw
    · rw [if_neg ha] at hw
      rcases List.mem_singleton.mp hw with rfl
      exact Or.inr (List.mem_reverse.mp hc)
  | cons d rest ih =>
    intro acc w hw c hc
    simp only [splitAux] at hw
    by_cases hd : isWS d
    · rw [if_pos hd] at hw
      by_cases ha : acc = []
      · rw [if_pos ha] at hw
        rcases ih [] w hw c hc with h | h
        · exact Or.inl (List.mem_cons_of_mem _ h)
        · cases h
      · rw [if_neg ha] at hw
        rcases List.mem_cons.mp hw with rfl | hw2
        · exact Or.inr (List.mem_reverse.mp hc)
        · rcases ih [] w hw2 c hc with h | h
          · exact Or.inl (List.mem_cons_of_mem _ h)
          · cases h
    · rw [if_neg hd] at hw
      rcases ih (d :: acc) w hw c hc with h | h
      · exact Or.inl (List.mem_cons_of_mem _ h)
      · rcases List.mem_cons.mp h with rfl | h2
        · exact Or.inl (List.mem_cons_self _ _)
        · exact Or.inr h2

theorem collapseAux_chars :
    ∀ (l : List Char) (b : Bool), ∀ c ∈ collapseAux b l, c ∈ l ∨ c = ' ' := by
  intro l
  induction l with
  | nil => intro b c hc; cases hc
  | cons d rest ih =>
    intro b c hc
    simp only [collapseAux] at hc
    by_cases hd : isWS d
    · rw [if_pos hd] at hc
      by_cases hb : b
      · rw [if_pos hb] at hc
        rcases ih true c hc with h | h
        · exact Or.inl (List.mem_cons_of_mem _ h)
        · exact Or.inr h
      · rw [if_neg hb] at hc
        rcases List.mem_cons.mp hc with rfl | hc2
        · exact Or.inr rfl
        · rcases ih true c hc2 with h | h
          · exact Or.inl (List.mem_cons_of_mem _ h)
          · exact Or.inr h
    · rw [if_neg hd] at hc
      rcases List.mem_cons.mp hc with rfl | hc2
      · exact Or.inl (List.mem_cons_self _ _)
      · rcases ih false c hc2 with h | h
        · exact Or.inl (List.mem_cons_of_mem _ h)
        · exact Or.inr h

theorem pyStrip_chars (l : List Char) : ∀ c ∈ pyStrip l, c ∈ l := by
  intro c hc
  unfold pyStrip at hc
  have h1 := List.mem_reverse.mp hc
  have h2 := (List.dropWhile_suffix isWS).sublist.subset h1
  have h3 := List.mem_reverse.mp h2
  exact (List.dropWhile_suffix isWS).sublist.subset h3

theorem collapseAux_wsFree (w : List Char) (h : ∀ c ∈ w, isWS c = false) :
    ∀ b, collapseAux b w = w := by
  induction w with
  | nil => intro b; rfl
  | cons c rest ih =>
    intro b
    simp only [collapseAux]
    rw [if_neg (by simp [h c (List.mem_cons_self _ _)])]
    exact congrArg _ (ih (fun d hd => h d (List.mem_cons_of_mem _ hd)) false)

theorem collapseAux_append_word :
    ∀ (w : List Char), (∀ c ∈ w, isWS c = false) → ∀ (rest : List Char) (b : Bool),
      collapseAux b (w ++ rest) = w ++ collapseAux (if w = [] then b else false) rest := by
  intro w
  induction w with
  | nil => intro _ rest b; simp
  | cons c w' ih =>
    intro h rest b
    simp only [List.cons_append, collapseAux]
    rw [if_neg (by simp [h c (List.mem_cons_self _ _)])]
    rw [show w'.append rest = w' ++ rest from rfl]
    rw [ih (fun d hd => h d (List.mem_cons_of_mem _ hd)) rest false]
    simp [ite_self]

theorem joinSp_cons_cons (w w' : List Char) (ws : List (List Char)) :
    joinSp (w :: w' :: ws) = w ++ ' ' :: joinSp (w' :: ws) := rfl

theorem collapseAux_joinSp :
    ∀ (ws : List (List Char)),
      (∀ w ∈ ws, w ≠ [] ∧ ∀ c ∈ w, isWS c = false) →
      ∀ b, collapseAux b (joinSp ws) = joinSp ws := by
  intro ws
  induction ws with
  | nil => intro _ b; rfl
  | cons w rest ih =>
    intro h b
    cases rest with
    | nil =>
      exact collapseAux_wsFree w (h w (List.mem_cons_self _ _)).2 b
    | cons w' rest' =>
      rw [joinSp_cons_cons]
      rw [collapseAux_append_word w (h w (List.mem_cons_self _ _)).2 _ b]
      rw [if_neg (h w (List.mem_cons_self _ _)).1]
      have hsp : collapseAux false (' ' :: joinSp (w' :: rest')) =
          ' ' :: collapseAux true (joinSp (w' :: rest')) := by
        simp [collapseAux, isWS, wsChars]
      rw [hsp, ih (fun u hu => h u (List.mem_cons_of_mem _ hu)) true]

theorem dropWhile_isWS_head (l : List Char)
    (h : ∀ c r, l = c :: r → isWS c = false) : l.dropWhile isWS = l := by
  cases l with
  | nil => rfl
  | cons c r =>
    rw [List.dropWhile_cons, if_neg (by simp [h c r rfl])]

theorem joinSp_head_nonws (w : List Char) (ws : List (List Char))
    (hne : w ≠ []) (hws : ∀ c ∈ w, isWS c = false) :
    ∀ c r, joinSp (w :: ws) = c :: r → isWS c = false := by
  intro c r heq
  cases ws with
  | nil =>
    have : w = c :: r := heq
    exact hws c (this ▸ List.mem_cons_self _ _)
  | cons w' rest =>
    rw [joinSp_cons_cons] at heq
    cases w with
    | nil => exact absurd rfl hne
    | cons d w2 =>
      simp only [List.cons_append] at heq
      have hd : d = c := (List.cons.injEq _ _ _ _ ▸ heq).1
      exact hd ▸ hws d (List.mem_cons_self _ _)

theorem joinSp_append_single :
    ∀ (as : List (List Char)) (x : List Char), as ≠ [] →
      joinSp (as ++ [x]) = joinSp as ++ ' ' :: x := by
  intro as
  induction as with
  | nil => intro x h; exact absurd rfl h
  | cons a as' ih =>
    intro x _
    cases as' with
    | nil => rfl
    | cons a' as'' =>
      have h1 : (a :: a' :: as'') ++ [x] = a :: ((a' :: as'') ++ [x]) := rfl
      rw [h1]
      have h2 : (a' :: as'') ++ [x] = a' :: (as'' ++ [x]) := rfl
      rw [h2, joinSp_cons_cons, ← h2, ih x (by simp), joinSp_cons_cons]
      simp

theorem joinSp_reverse :
    ∀ ws : List (List Char),
      (joinSp ws).reverse = joinSp ((ws.map List.reverse).reverse) := by
  intro ws
  induction ws with
  | nil => rfl
  | cons w rest ih =>
    cases rest with
    | nil => rfl
    | cons w' rest' =>
      rw [joinSp_cons_cons]
      rw [List.reverse_append, List.reverse_cons]
      have h1 : (w :: w' :: rest').map List.reverse =
          w.reverse :: (w' :: rest').map List.reverse := rfl
      rw [h1, List.reverse_cons]
      rw [joinSp_append_single _ _ (by simp), ← ih]
      simp

theorem pyStrip_joinSp (ws : List (List Char))
    (h : ∀ w ∈ ws, w ≠ [] ∧ ∀ c ∈ w, isWS c = false) :
    pyStrip (joinSp ws) = joinSp ws := by
  cases ws with
  | nil => rfl
  | cons w rest =>
    unfold pyStrip
    rw [dropWhile_isWS_head _ (joinSp_head_nonws w rest
      (h w (List.mem_cons_self _ _)).1 (h w (List.mem_cons_self _ _)).2)]
    rw [joinSp_reverse]
    have hgood : ∀ u ∈ ((w :: rest).map List.reverse).reverse,
        u ≠ [] ∧ ∀ c ∈ u, isWS c = false := by
      intro u hu
      rw [List.mem_reverse, List.mem_map] at hu
      obtain ⟨v, hv, rfl⟩ := hu
      exact ⟨by simpa using (h v hv).1,
        fun c hc => (h v hv).2 c (List.mem_reverse.mp hc)⟩
    have hne2 : ((w :: rest).map List.reverse).reverse ≠ [] := by simp
    obtain ⟨u, us, hu⟩ : ∃ u us, ((w :: rest).map List.reverse).reverse = u :: us := by
      cases hrev : ((w :: rest).map List.reverse).reverse with
      | nil => exact absurd hrev hne2
      | cons u us => exact ⟨u, us, rfl⟩
    rw [hu]
    rw [dropWhile_isWS_head _ (joinSp_head_nonws u us
      (hgood u (hu ▸ List.mem_cons_self _ _)).1
      (hgood u (hu ▸ List.mem_cons_self _ _)).2)]
    rw [← hu, ← joinSp_reverse, List.reverse_reverse]

theorem splitAux_word :
    ∀ (w : List Char), (∀ c ∈ w, isWS c = false) →
      ∀ (l acc : List Char), splitAux acc (w ++ l) = splitAux (w.reverse ++ acc) l := by
  intro w
  induction w with
  | nil => intro _ l acc; simp
  | cons c w' ih =>
    intro h l acc
    simp only [List.cons_append, splitAux]
    rw [if_neg (by simp [h c (List.mem_cons_self _ _)])]
    rw [show w'.append l = w' ++ l from rfl]
    rw [ih (fun d hd => h d (List.mem_cons_of_mem _ hd)) l (c :: acc)]
    simp

theorem splitAux_joinSp :
    ∀ (ws : List (List Char)),
      (∀ w ∈ ws, w ≠ [] ∧ ∀ c ∈ w, isWS c = false) →
      splitAux [] (joinSp ws) = ws := by
  intro ws
  induction ws with
  | nil => intro _; rfl
  | cons w rest ih =>
    intro h
    cases rest with
    | nil =>
      show splitAux [] w = [w]
      have := splitAux_word w (h w (List.mem_cons_self _ _)).2 [] []
      rw [List.append_nil] at this
      rw [this, List.append_nil]
      simp only [splitAux]
      rw [if_neg (by simpa using (h w (List.mem_cons_self _ _)).1)]
      rw [List.reverse_reverse]
    | cons w' rest' =>
      rw [joinSp_cons_cons]
      rw [splitAux_word w (h w (List.mem_cons_self _ _)).2 _ []]
      rw [List.append_nil]
      simp only [splitAux]
      rw [if_pos (by simp [isWS, wsChars])]
      rw [if_neg (by simpa using (h w (List.mem_cons_self _ _)).1)]
      rw [List.reverse_reverse]
      rw [ih (fun u hu => h u (List.mem_cons_of_mem _ hu))]

theorem mem_joinSp :
    ∀ (ws : List (List Char)) (c : Char), c ∈ joinSp ws →
      c = ' ' ∨ ∃ w ∈ ws, c ∈ w := by
  intro ws
  induction ws with
  | nil => intro c hc; cases hc
  | cons w rest ih =>
    intro c hc
    cases rest with
    | nil => exact Or.inr ⟨w, List.mem_cons_self _ _, hc⟩
    | cons w' rest' =>
      rw [joinSp_cons_cons] at hc
      rcases List.mem_append.mp hc with h | h
      · exact Or.inr ⟨w, List.mem_cons_self _ _, h⟩
      · rcases List.mem_cons.mp h with rfl | h2
        · exact Or.inl rfl
        · rcases ih c h2 with h3 | ⟨u, hu, hcu⟩
          · exact Or.inl h3
          · exact Or.inr ⟨u, List.mem_cons_of_mem _ hu, hcu⟩

theorem pySplit_eq (l : List Char) : pySplit l = splitAux [] l := rfl

theorem normalizeL_idem (s : List Char) :
    normalizeL (normalizeL s) = normalizeL s := by
  by_cases hs : s = []
  · rw [hs]
    simp [normalizeL]
  · have hns : normalizeL s =
        joinSp ((pySplit (collapseAux false (pyStrip (lowerL s)))).filter
          (fun w => decide (w ∉ commonWords))) := by
      simp only [normalizeL]
      rw [if_neg hs]
    set kept := (pySplit (collapseAux false (pyStrip (lowerL s)))).filter
      (fun w => decide (w ∉ commonWords)) with hkept
    have hgood : ∀ w ∈ kept, w ≠ [] ∧ ∀ c ∈ w, isWS c = false := by
      intro w hw
      have hw2 : w ∈ pySplit (collapseAux false (pyStrip (lowerL s))) :=
        (List.mem_filter.mp hw).1
      exact splitAux_good _ [] (by simp) w hw2
    have hfix : ∀ c ∈ joinSp kept, lcase c = c := by
      intro c hc
      rcases mem_joinSp kept c hc with rfl | ⟨w, hw, hcw⟩
      · decide
      · have hw2 : w ∈ pySplit (collapseAux false (pyStrip (lowerL s))) :=
          (List.mem_filter.mp hw).1
        rcases splitAux_chars _ [] w hw2 c hcw with hcl | hnil
        · rcases collapseAux_chars _ false c hcl with hcl2 | rfl
          · have hcl3 := pyStrip_chars _ c hcl2
            rcases List.mem_map.mp hcl3 with ⟨a, -, rfl⟩
            exact lcase_idem a
          · decide
        · cases hnil
    rw [hns]
    by_cases ho : joinSp kept = []
    · rw [ho]
      simp [normalizeL]
    · simp only [normalizeL]
      rw [if_neg ho, lowerL_fix _ hfix, pyStrip_joinSp kept hgood,
        collapseAux_joinSp kept hgood false, pySplit_eq,
        splitAux_joinSp kept hgood]
      have hfi : kept.filter (fun w => decide (w ∉ commonWords)) = kept := by
        rw [List.filter_eq_self]
        intro w hw
        exact (List.mem_filter.mp hw).2
      rw [hfi]

theorem toList_mk (l : List Char) : (String.mk l).toList = l := rfl

/-- C7: the text normalizer is idempotent: `normalize(normalize(x)) =
normalize(x)` for every string `x` — one pass leaves only lowercase-fixed,
whitespace-free, non-stop-word tokens joined by single spaces, on which a
second pass is the identity. -/
theorem normalize_text_idem (s : String) :
    normalize_text (normalize_text s) = normalize_text s := by
  unfold normalize_text
  rw [toList_mk]
  exact congrArg String.mk (normalizeL_idem s.toList)
